import Mathlib

/-!
Verification of the `unbound-control` output parser
(`src/jc/parsers/unbound_control.py`).

The parser is embedded shallowly: Python strings are Lean `String`s,
Python `dict`s are insertion-ordered association lists updated in place
(`dictUpdate`), and the three runtime faults the code can raise
(`NameError` for the unset `status` variable, `IndexError` for a missing
split field, `ValueError` for a failed numeric conversion) are modelled
with `Except PErr`.  Python `float` values are represented by the
(whitespace-stripped) literal text they were parsed from, since no claim
depends on float arithmetic, only on which type a field receives.

Note on aliasing: Python appends the mutable `status` dict to the output
by reference.  This embedding appends an immutable snapshot.  The two
agree on every input in which each `unbound` terminator line is preceded
by its own `version:` line (a fresh dict is created there); the theorems
below about arbitrary inputs only concern record counts, ordering, the
aggregate dict and the text-ness of status fields, on which the snapshot
and the reference semantics agree.
-/

/-- Booleanized list-prefix test (Python `str.startswith`, on char lists). -/
def isPre : List Char → List Char → Bool
  | [], _ => true
  | _ :: _, [] => false
  | p :: ps, c :: cs => (p == c) && isPre ps cs

/-- First occurrence of `sep` in a char list: the text before it and after it.
`none` when `sep` does not occur (Python `s.find(sep) == -1`). -/
def findSplit (sep : List Char) : List Char → Option (List Char × List Char)
  | [] => none
  | c :: rest =>
    if isPre sep (c :: rest) then some ([], (c :: rest).drop sep.length)
    else (findSplit sep rest).map (fun pr => (c :: pr.1, pr.2))

/-- Python `str.split(sep, maxsplit)` on char lists (`sep` nonempty,
no collapsing, empty pieces kept). -/
def pySplitCore (sep : List Char) : Nat → List Char → List (List Char)
  | 0, s => [s]
  | Nat.succ m, s =>
    match findSplit sep s with
    | none => [s]
    | some pr => pr.1 :: pySplitCore sep m pr.2

/-- Python `s.split(sep, maxsplit=m)`. -/
def pySplit (sep : String) (m : Nat) (s : String) : List String :=
  (pySplitCore sep.data m s.data).map String.mk

/-- Remove leading characters belonging to the character set `cs`
(one at a time from the front, Python `str.lstrip(cs)`). -/
def dropLeft (cs : List Char) : List Char → List Char
  | [] => []
  | c :: rest => if cs.contains c then dropLeft cs rest else c :: rest

/-- Python `str.strip(cs)`: character-set strip from BOTH ends. -/
def stripChars (cs : List Char) (s : List Char) : List Char :=
  (dropLeft cs (dropLeft cs s).reverse).reverse

/-- Python whitespace characters recognized by `str.strip()` /
`str.isspace()` (the ASCII ones; the inputs at hand contain no others). -/
def pyWs : List Char := [' ', '\t', '\n', '\r', '\x0B', '\x0C']

/-- Python `s.strip(cs)` on `String`s. -/
def pyStripChars (cs : String) (s : String) : String :=
  String.mk (stripChars cs.data s.data)

/-- Python `s.strip()` (default whitespace strip). -/
def pyStripWs (s : String) : String := String.mk (stripChars pyWs s.data)

/-- Python `s.startswith(p)`. -/
def pyStartsWith (p s : String) : Bool := isPre p.data s.data

/-- Python `s.endswith(p)`. -/
def pyEndsWith (p s : String) : Bool := isPre p.data.reverse s.data.reverse

/-- Python `p in s` (substring containment). -/
def pyContains (p s : String) : Bool := (findSplit p.data s.data).isSome

/-- Decimal digit test. -/
def isDigitCh (c : Char) : Bool := decide ('0' ≤ c) && decide (c ≤ '9')

/-- Digit value of a decimal digit character. -/
def digitVal (c : Char) : Nat := c.toNat - '0'.toNat

/-- Digit run with optional single `_` separators between digits
(Python numeric-literal grouping), accumulating the value. -/
def pyDigitsAux : List Char → Nat → Option Nat
  | [], acc => some acc
  | '_' :: c :: rest, acc =>
    if isDigitCh c then pyDigitsAux rest (acc * 10 + digitVal c) else none
  | c :: rest, acc =>
    if isDigitCh c then pyDigitsAux rest (acc * 10 + digitVal c) else none

/-- The value of a nonempty digit run (`_` grouping allowed, as for
Python `int`), `none` when malformed. -/
def pyDigits : List Char → Option Nat
  | [] => none
  | '_' :: _ => none
  | c :: rest => if isDigitCh c then pyDigitsAux rest (digitVal c) else none

/-- Python `int(s)` for decimal text: surrounding whitespace allowed, one
optional sign, then digits.  `none` models the `ValueError`. -/
def pyIntOpt (s : String) : Option Int :=
  match stripChars pyWs s.data with
  | '+' :: rest => (pyDigits rest).map Int.ofNat
  | '-' :: rest => (pyDigits rest).map (fun n => -(n : Int))
  | t => (pyDigits t).map Int.ofNat

/-- Whether a char run is a valid digit run. -/
def digitsOk (t : List Char) : Bool := (pyDigits t).isSome

/-- Valid mantissa of a Python float literal: `d`, `d.`, `.d`, `d.d`. -/
def mantOk (t : List Char) : Bool :=
  match findSplit ['.'] t with
  | none => digitsOk t
  | some pr =>
    if pr.1 = [] then digitsOk pr.2
    else if pr.2 = [] then digitsOk pr.1
    else digitsOk pr.1 && digitsOk pr.2

/-- Optionally signed digit run (float exponent part). -/
def signedDigits (t : List Char) : Bool :=
  match t with
  | '+' :: r => digitsOk r
  | '-' :: r => digitsOk r
  | r => digitsOk r

/-- Split a float literal body at its exponent marker, if any. -/
def expSplit (t : List Char) : Option (List Char × List Char) :=
  match findSplit ['e'] t with
  | some pr => some pr
  | none => findSplit ['E'] t

/-- Unsigned body of a Python float literal. -/
def floatBody (t : List Char) : Bool :=
  match expSplit t with
  | some pr => mantOk pr.1 && signedDigits pr.2
  | none => mantOk t

/-- The `inf` / `infinity` / `nan` words Python `float` accepts. -/
def floatWordOk (t : List Char) : Bool :=
  t.map Char.toLower == ['i', 'n', 'f'] ||
  t.map Char.toLower == ['i', 'n', 'f', 'i', 'n', 'i', 't', 'y'] ||
  t.map Char.toLower == ['n', 'a', 'n']

/-- Whether Python `float(s)` succeeds (its numeric value is not needed by
any claim; a float field is represented by its stripped literal text). -/
def pyFloatValid (s : String) : Bool :=
  match stripChars pyWs s.data with
  | '+' :: r => floatWordOk r || floatBody r
  | '-' :: r => floatWordOk r || floatBody r
  | t => floatWordOk t || floatBody t

/-- A field value: Python `str`, `int`, or `float` (kept as literal text). -/
inductive Value where
  | vstr : String → Value
  | vint : Int → Value
  | vfloat : String → Value
deriving DecidableEq, Repr

/-- A record: a Python dict as an insertion-ordered association list. -/
abbrev Rec := List (String × Value)

/-- Python `d[k] = v` / `d.update(\x7bk: v\x7d)`: overwrite in place if the key
exists, else append at the end. -/
def dictUpdate (d : Rec) (k : String) (v : Value) : Rec :=
  if d.any (fun p => p.1 == k) then
    d.map (fun p => if p.1 == k then (k, v) else p)
  else d ++ [(k, v)]

/-- Python `d.get(k)`: first (and, keys being unique, only) binding. -/
def dictLookup (k : String) : Rec → Option Value
  | [] => none
  | p :: d => if p.1 == k then some p.2 else dictLookup k d

/-- The keys of a record, in order. -/
def dictKeys (d : Rec) : List String := d.map (fun p => p.1)

/-- The three runtime faults the source can raise while parsing. -/
inductive PErr where
  | nameError
  | indexError
  | valueError
deriving DecidableEq, Repr

/-- Python `str.splitlines` worker (`\n`, `\r\n` and `\r` boundaries; a
terminator at end of input produces no trailing empty line). -/
def splitLinesAux (cur : List Char) : List Char → List (List Char)
  | [] => [cur.reverse]
  | '\r' :: '\n' :: rest =>
    cur.reverse :: (if rest.isEmpty then [] else splitLinesAux [] rest)
  | '\n' :: rest =>
    cur.reverse :: (if rest.isEmpty then [] else splitLinesAux [] rest)
  | '\r' :: rest =>
    cur.reverse :: (if rest.isEmpty then [] else splitLinesAux [] rest)
  | c :: rest => splitLinesAux (c :: cur) rest

/-- Python `data.splitlines()` (for the line boundaries occurring in
`unbound-control` output). -/
def pySplitLines (s : String) : List String :=
  match s.data with
  | [] => []
  | l => (splitLinesAux [] l).map String.mk

/-- Modelled from the spec: `jc.utils.has_data` (the repository file
`jc/utils.py` is not under `src/`): "Empty/absent input yields an empty
output sequence" — the guard is true exactly when the input has some
non-whitespace character. -/
def pyHasData (s : String) : Bool :=
  (s != "") && !(s.data.all (fun c => pyWs.contains c))

/-- The classification a line receives from the source's `if`/`continue`
chain, in the source's order (first match wins). -/
inductive LineClass where
  | ack | version | verbosity | threads | modules | uptime | options
  | unboundTerm | zstatic | zredirect | zserial | stats | skip
deriving DecidableEq, Repr, BEq

/-- The ten statistics namespace tests of line 190 of the source. -/
def statsPre (t : String) : Bool :=
  pyStartsWith "thread" t || pyStartsWith "total." t || pyStartsWith "time." t ||
  pyStartsWith "mem." t || pyStartsWith "num." t || pyStartsWith "unwanted." t ||
  pyStartsWith "msg." t || pyStartsWith "rrset." t || pyStartsWith "infra." t ||
  pyStartsWith "key." t

/-- The condition of source line 194: parse the statistics value as a float
exactly when it holds, else as an int. -/
def floatKeyB (k : String) : Bool :=
  pyStartsWith "time." k || pyEndsWith ".recursion.time.avg" k ||
  pyEndsWith ".requestlist.avg" k || pyEndsWith ".recursion.time.median" k

/-- Classify one (already stripped) line by the source's rule chain. -/
def classify (t : String) : LineClass :=
  if pyStartsWith "ok" t then .ack
  else if pyStartsWith "version:" t then .version
  else if pyStartsWith "verbosity:" t then .verbosity
  else if pyStartsWith "threads:" t then .threads
  else if pyStartsWith "modules:" t then .modules
  else if pyStartsWith "uptime:" t then .uptime
  else if pyStartsWith "options:" t then .options
  else if pyStartsWith "unbound" t then .unboundTerm
  else if pyEndsWith " static" t then .zstatic
  else if pyEndsWith " redirect" t then .zredirect
  else if pyContains "serial " t then .zserial
  else if statsPre t then .stats
  else .skip

/-- The loop state of `parse`: the output built so far, the aggregate flag
`itrparse`, the aggregate dict `itr`, and the `status` dict (`none` while
the Python local variable is still unbound). -/
structure PState where
  rawOutput : List Rec
  itrparse : Bool
  itr : Rec
  status : Option Rec
deriving DecidableEq, Repr

/-- The state before the loop: `raw_output = []`, `itrparse = False`,
`itr = \x7b\x7d`, `status` unbound. -/
def initState : PState := ⟨[], false, [], none⟩

/-- One iteration of the source's loop body on an already stripped line.
Fault order matches the source: in each branch the split subscript is
evaluated before `status` is touched. -/
def processCore (st : PState) (line : String) : Except PErr PState :=
  match classify line with
  | .ack =>
    .ok { st with rawOutput := st.rawOutput ++ [[("command", Value.vstr "ok")]] }
  | .version =>
    match (pySplit ":" 1 line).get? 1 with
    | none => .error .indexError
    | some v1 =>
      .ok { st with status := some [("version", Value.vstr (pyStripWs v1))] }
  | .verbosity =>
    match (pySplit ":" 1 line).get? 1 with
    | none => .error .indexError
    | some v1 =>
      match st.status with
      | none => .error .nameError
      | some status =>
        .ok { st with status := some (dictUpdate status "verbosity" (Value.vstr v1)) }
  | .threads =>
    match (pySplit ": " 1 line).get? 1 with
    | none => .error .indexError
    | some v1 =>
      match st.status with
      | none => .error .nameError
      | some status =>
        .ok { st with status := some (dictUpdate status "threads" (Value.vstr v1)) }
  | .modules =>
    match (pySplit ": " 1 line).get? 1 with
    | none => .error .indexError
    | some v1 =>
      match st.status with
      | none => .error .nameError
      | some status =>
        .ok { st with status := some (dictUpdate status "modules" (Value.vstr v1)) }
  | .uptime =>
    match (pySplit ": " 1 line).get? 1 with
    | none => .error .indexError
    | some v1 =>
      match st.status with
      | none => .error .nameError
      | some status =>
        .ok { st with status := some (dictUpdate status "uptime" (Value.vstr (pyStripChars " seconds" v1))) }
  | .options =>
    match (pySplit ": " 1 line).get? 1 with
    | none => .error .indexError
    | some v1 =>
      match st.status with
      | none => .error .nameError
      | some status =>
        .ok { st with status := some (dictUpdate status "options" (Value.vstr v1)) }
  | .unboundTerm =>
    match (pySplit " " 4 line).get? 2 with
    | none => .error .indexError
    | some t2 =>
      match st.status with
      | none => .error .nameError
      | some status =>
        .ok { st with
          status := some (dictUpdate status "pid" (Value.vstr (pyStripChars ")" t2))),
          rawOutput := st.rawOutput ++ [dictUpdate status "pid" (Value.vstr (pyStripChars ")" t2))] }
  | .zstatic =>
    .ok { st with
          itrparse := true,
          itr := dictUpdate st.itr ((pySplit " " 1 line).headD "") (Value.vstr "static") }
  | .zredirect =>
    .ok { st with
          itrparse := true,
          itr := dictUpdate st.itr ((pySplit " " 1 line).headD "") (Value.vstr "redirect") }
  | .zserial =>
    match (pySplit "\t" 2 line).get? 1 with
    | none => .error .indexError
    | some f1 =>
      match pyIntOpt (pyStripChars "serial " f1) with
      | none => .error .valueError
      | some serial =>
        .ok { st with
              itrparse := true,
              itr := dictUpdate st.itr ((pySplit "\t" 2 line).headD "") (Value.vint serial) }
  | .stats =>
    match (pySplit "=" 1 line).get? 1 with
    | none => .error .indexError
    | some v1 =>
      if floatKeyB ((pySplit "=" 1 line).headD "") then
        if pyFloatValid v1 then
          .ok { st with
                itrparse := true,
                itr := dictUpdate st.itr ((pySplit "=" 1 line).headD "") (Value.vfloat (pyStripWs v1)) }
        else .error .valueError
      else
        match pyIntOpt v1 with
        | none => .error .valueError
        | some n =>
          .ok { st with
                itrparse := true,
                itr := dictUpdate st.itr ((pySplit "=" 1 line).headD "") (Value.vint n) }
  | .skip => .ok st

/-- One loop iteration on the raw line (`line = line.strip()` first). -/
def processLine (st : PState) (l : String) : Except PErr PState :=
  processCore st (pyStripWs l)

/-- The whole loop over the (filtered) line list. -/
def runLines (st : PState) : List String → Except PErr PState
  | [] => .ok st
  | l :: rest =>
    match processLine st l with
    | .ok st' => runLines st' rest
    | .error e => .error e

/-- The line sequence `parse` iterates over:
`filter(None, data.splitlines())`. -/
def procLines (data : String) : List String :=
  (pySplitLines data).filter (fun l => l != "")

/-- `parse` up to (excluding) the raw/processed choice: the raw structured
output, with the aggregate dict appended last when `itrparse` was set. -/
def parseRaw (data : String) : Except PErr (List Rec) :=
  if pyHasData data then
    match runLines initState (procLines data) with
    | .ok st => .ok (st.rawOutput ++ (if st.itrparse then [st.itr] else []))
    | .error e => .error e
  else .ok []

/-- The fixed numeric-field set of `_process` (source line 77). -/
def intList : List String := ["verbosity", "threads", "uptime", "pid"]

/-- Modelled from the spec: `jc.utils.convert_to_int` (the repository file
`jc/utils.py` is not under `src/`): converts a text field to an integer,
failing (conversion fault) when the text is not a valid integer; an
already-integer value converts to itself.  The spec does not define the
conversion of a float-typed field and no recognized field name carries
one, so it is left failing. -/
def convert_to_int : Value → Option Int
  | .vstr s => pyIntOpt s
  | .vint n => some n
  | .vfloat _ => none

/-- Option-valued traversal (the source's `for` loops with a fault
aborting the call). -/
def mapOptList (f : α → Option β) : List α → Option (List β)
  | [] => some []
  | a :: as =>
    match f a with
    | some b => (mapOptList f as).map (fun bs => b :: bs)
    | none => none

/-- The inner loop of `_process`: coerce the `intList` fields of one
record in place. -/
def processEntry (r : Rec) : Option Rec :=
  mapOptList
    (fun kv =>
      if intList.contains kv.1 then
        (convert_to_int kv.2).map (fun n => (kv.1, Value.vint n))
      else some kv) r

/-- `_process` (source lines 65-84). -/
def _process (recs : List Rec) : Option (List Rec) := mapOptList processEntry recs

/-- `parse` (source lines 87-204): raw or processed structured output. -/
def parse (data : String) (raw : Bool) : Except PErr (List Rec) :=
  match parseRaw data with
  | .error e => .error e
  | .ok out =>
    if raw then .ok out
    else
      match _process out with
      | some out' => .ok out'
      | none => .error .valueError

/-! ### Basic facts about the string helpers -/

theorem isPre_diverge (common ps qs l : List Char) (a b : Char)
    (h : isPre (common ++ a :: ps) l = true) (hab : (b == a) = false) :
    isPre (common ++ b :: qs) l = false := by
  induction common generalizing l with
  | nil =>
    cases l with
    | nil => simp [isPre] at h
    | cons c cs =>
      simp only [List.nil_append, isPre, Bool.and_eq_true] at h
      obtain ⟨hac, -⟩ := h
      have hac' : a = c := by simpa using hac
      show isPre (b :: qs) (c :: cs) = false
      simp only [isPre]
      rw [show (b == c) = false from by rw [← hac']; exact hab, Bool.false_and]
  | cons d common ih =>
    cases l with
    | nil => simp [isPre] at h
    | cons c cs =>
      simp only [List.cons_append, isPre, Bool.and_eq_true] at h
      obtain ⟨hdc, h2⟩ := h
      show isPre (d :: (common ++ b :: qs)) (c :: cs) = false
      simp only [isPre]
      rw [ih cs h2, Bool.and_false]

theorem classify_version (t : String) (h : pyStartsWith "version:" t = true) :
    classify t = .version := by
  have h1 : pyStartsWith "ok" t = false :=
    isPre_diverge [] ['e', 'r', 's', 'i', 'o', 'n', ':'] ['k'] t.data 'v' 'o' h (by decide)
  simp [classify, h1, h]

theorem classify_verbosity (t : String) (h : pyStartsWith "verbosity:" t = true) :
    classify t = .verbosity := by
  have h1 : pyStartsWith "ok" t = false :=
    isPre_diverge [] ['e', 'r', 'b', 'o', 's', 'i', 't', 'y', ':'] ['k'] t.data 'v' 'o' h (by decide)
  have h2 : pyStartsWith "version:" t = false :=
    isPre_diverge ['v', 'e', 'r'] ['o', 's', 'i', 't', 'y', ':'] ['i', 'o', 'n', ':'] t.data 'b' 's' h (by decide)
  simp [classify, h1, h2, h]

theorem classify_threads (t : String) (h : pyStartsWith "threads:" t = true) :
    classify t = .threads := by
  have h1 : pyStartsWith "ok" t = false :=
    isPre_diverge [] ['h', 'r', 'e', 'a', 'd', 's', ':'] ['k'] t.data 't' 'o' h (by decide)
  have h2 : pyStartsWith "version:" t = false :=
    isPre_diverge [] ['h', 'r', 'e', 'a', 'd', 's', ':'] ['e', 'r', 's', 'i', 'o', 'n', ':'] t.data 't' 'v' h (by decide)
  have h3 : pyStartsWith "verbosity:" t = false :=
    isPre_diverge [] ['h', 'r', 'e', 'a', 'd', 's', ':'] ['e', 'r', 'b', 'o', 's', 'i', 't', 'y', ':'] t.data 't' 'v' h (by decide)
  simp [classify, h1, h2, h3, h]

theorem classify_modules (t : String) (h : pyStartsWith "modules:" t = true) :
    classify t = .modules := by
  have h1 : pyStartsWith "ok" t = false :=
    isPre_diverge [] ['o', 'd', 'u', 'l', 'e', 's', ':'] ['k'] t.data 'm' 'o' h (by decide)
  have h2 : pyStartsWith "version:" t = false :=
    isPre_diverge [] ['o', 'd', 'u', 'l', 'e', 's', ':'] ['e', 'r', 's', 'i', 'o', 'n', ':'] t.data 'm' 'v' h (by decide)
  have h3 : pyStartsWith "verbosity:" t = false :=
    isPre_diverge [] ['o', 'd', 'u', 'l', 'e', 's', ':'] ['e', 'r', 'b', 'o', 's', 'i', 't', 'y', ':'] t.data 'm' 'v' h (by decide)
  have h4 : pyStartsWith "threads:" t = false :=
    isPre_diverge [] ['o', 'd', 'u', 'l', 'e', 's', ':'] ['h', 'r', 'e', 'a', 'd', 's', ':'] t.data 'm' 't' h (by decide)
  simp [classify, h1, h2, h3, h4, h]

theorem classify_uptime (t : String) (h : pyStartsWith "uptime:" t = true) :
    classify t = .uptime := by
  have h1 : pyStartsWith "ok" t = false :=
    isPre_diverge [] ['p', 't', 'i', 'm', 'e', ':'] ['k'] t.data 'u' 'o' h (by decide)
  have h2 : pyStartsWith "version:" t = false :=
    isPre_diverge [] ['p', 't', 'i', 'm', 'e', ':'] ['e', 'r', 's', 'i', 'o', 'n', ':'] t.data 'u' 'v' h (by decide)
  have h3 : pyStartsWith "verbosity:" t = false :=
    isPre_diverge [] ['p', 't', 'i', 'm', 'e', ':'] ['e', 'r', 'b', 'o', 's', 'i', 't', 'y', ':'] t.data 'u' 'v' h (by decide)
  have h4 : pyStartsWith "threads:" t = false :=
    isPre_diverge [] ['p', 't', 'i', 'm', 'e', ':'] ['h', 'r', 'e', 'a', 'd', 's', ':'] t.data 'u' 't' h (by decide)
  have h5 : pyStartsWith "modules:" t = false :=
    isPre_diverge [] ['p', 't', 'i', 'm', 'e', ':'] ['o', 'd', 'u', 'l', 'e', 's', ':'] t.data 'u' 'm' h (by decide)
  simp [classify, h1, h2, h3, h4, h5, h]

theorem classify_options (t : String) (h : pyStartsWith "options:" t = true) :
    classify t = .options := by
  have h1 : pyStartsWith "ok" t = false :=
    isPre_diverge ['o'] ['t', 'i', 'o', 'n', 's', ':'] [] t.data 'p' 'k' h (by decide)
  have h2 : pyStartsWith "version:" t = false :=
    isPre_diverge [] ['p', 't', 'i', 'o', 'n', 's', ':'] ['e', 'r', 's', 'i', 'o', 'n', ':'] t.data 'o' 'v' h (by decide)
  have h3 : pyStartsWith "verbosity:" t = false :=
    isPre_diverge [] ['p', 't', 'i', 'o', 'n', 's', ':'] ['e', 'r', 'b', 'o', 's', 'i', 't', 'y', ':'] t.data 'o' 'v' h (by decide)
  have h4 : pyStartsWith "threads:" t = false :=
    isPre_diverge [] ['p', 't', 'i', 'o', 'n', 's', ':'] ['h', 'r', 'e', 'a', 'd', 's', ':'] t.data 'o' 't' h (by decide)
  have h5 : pyStartsWith "modules:" t = false :=
    isPre_diverge [] ['p', 't', 'i', 'o', 'n', 's', ':'] ['o', 'd', 'u', 'l', 'e', 's', ':'] t.data 'o' 'm' h (by decide)
  have h6 : pyStartsWith "uptime:" t = false :=
    isPre_diverge [] ['p', 't', 'i', 'o', 'n', 's', ':'] ['p', 't', 'i', 'm', 'e', ':'] t.data 'o' 'u' h (by decide)
  simp [classify, h1, h2, h3, h4, h5, h6, h]

theorem classify_unbound (t : String) (h : pyStartsWith "unbound" t = true) :
    classify t = .unboundTerm := by
  have h1 : pyStartsWith "ok" t = false :=
    isPre_diverge [] ['n', 'b', 'o', 'u', 'n', 'd'] ['k'] t.data 'u' 'o' h (by decide)
  have h2 : pyStartsWith "version:" t = false :=
    isPre_diverge [] ['n', 'b', 'o', 'u', 'n', 'd'] ['e', 'r', 's', 'i', 'o', 'n', ':'] t.data 'u' 'v' h (by decide)
  have h3 : pyStartsWith "verbosity:" t = false :=
    isPre_diverge [] ['n', 'b', 'o', 'u', 'n', 'd'] ['e', 'r', 'b', 'o', 's', 'i', 't', 'y', ':'] t.data 'u' 'v' h (by decide)
  have h4 : pyStartsWith "threads:" t = false :=
    isPre_diverge [] ['n', 'b', 'o', 'u', 'n', 'd'] ['h', 'r', 'e', 'a', 'd', 's', ':'] t.data 'u' 't' h (by decide)
  have h5 : pyStartsWith "modules:" t = false :=
    isPre_diverge [] ['n', 'b', 'o', 'u', 'n', 'd'] ['o', 'd', 'u', 'l', 'e', 's', ':'] t.data 'u' 'm' h (by decide)
  have h6 : pyStartsWith "uptime:" t = false :=
    isPre_diverge ['u'] ['b', 'o', 'u', 'n', 'd'] ['t', 'i', 'm', 'e', ':'] t.data 'n' 'p' h (by decide)
  have h7 : pyStartsWith "options:" t = false :=
    isPre_diverge [] ['n', 'b', 'o', 'u', 'n', 'd'] ['p', 't', 'i', 'o', 'n', 's', ':'] t.data 'u' 'o' h (by decide)
  simp [classify, h1, h2, h3, h4, h5, h6, h7, h]

/-! ### Dict (association-list) facts -/

/-- Left-biased choice on `Option` (used to state "last write wins"). -/
def orE (a b : Option α) : Option α :=
  match a with
  | some x => some x
  | none => b

theorem orE_none_right (a : Option α) : orE a none = a := by
  cases a <;> rfl

theorem orE_assoc (a b c : Option α) : orE a (orE b c) = orE (orE a b) c := by
  cases a <;> rfl

theorem dictLookup_append (k : String) (d1 d2 : Rec) :
    dictLookup k (d1 ++ d2) = orE (dictLookup k d1) (dictLookup k d2) := by
  induction d1 with
  | nil => simp [dictLookup, orE]
  | cons p d ih =>
    simp only [List.cons_append, dictLookup]
    by_cases hp : (p.1 == k) = true
    · simp [hp, orE]
    · simp only [hp]
      rw [if_neg (by simp [hp]), if_neg (by simp [hp])]
      simpa [List.append_eq] using ih

theorem dictLookup_map_upd_ne (k k' : String) (v : Value) (hne : k' ≠ k) :
    ∀ d : Rec,
      dictLookup k' (d.map (fun p => if p.1 == k then (k, v) else p)) = dictLookup k' d
  | [] => rfl
  | p :: d => by
    by_cases hp : (p.1 == k) = true
    · have hp1 : p.1 = k := by simpa using hp
      simp only [List.map_cons, if_pos hp, dictLookup]
      rw [if_neg (by simp [Ne.symm hne]), if_neg (by simp [hp1, Ne.symm hne])]
      exact dictLookup_map_upd_ne k k' v hne d
    · simp only [List.map_cons, if_neg hp, dictLookup]
      by_cases hq : (p.1 == k') = true
      · rw [if_pos hq, if_pos hq]
      · rw [if_neg hq, if_neg hq]
        exact dictLookup_map_upd_ne k k' v hne d

theorem dictLookup_map_upd_self (k : String) (v : Value) :
    ∀ d : Rec, d.any (fun p => p.1 == k) = true →
      dictLookup k (d.map (fun p => if p.1 == k then (k, v) else p)) = some v
  | [], h => by simp at h
  | p :: d, h => by
    by_cases hp : (p.1 == k) = true
    · simp only [List.map_cons, if_pos hp, dictLookup]
      rw [if_pos (by simp)]
    · simp only [List.map_cons, if_neg hp, dictLookup]
      have hd : d.any (fun p => p.1 == k) = true := by
        simp only [List.any_cons, hp, Bool.false_or] at h
        exact h
      exact dictLookup_map_upd_self k v d hd

/-- The central dict law: an update is observed at its own key and nowhere
else (Python in-place assignment semantics). -/
theorem dictLookup_update (d : Rec) (k k' : String) (v : Value) :
    dictLookup k' (dictUpdate d k v) = if k' = k then some v else dictLookup k' d := by
  unfold dictUpdate
  by_cases hany : d.any (fun p => p.1 == k) = true
  · rw [if_pos hany]
    by_cases hk : k' = k
    · subst hk
      rw [dictLookup_map_upd_self k' v d hany, if_pos rfl]
    · rw [dictLookup_map_upd_ne k k' v hk d, if_neg hk]
  · rw [if_neg hany, dictLookup_append]
    by_cases hk : k' = k
    · subst hk
      have hnone : dictLookup k' d = none := by
        induction d with
        | nil => rfl
        | cons p rest ih =>
          simp only [List.any_cons, Bool.or_eq_true, not_or] at hany
          simp only [dictLookup]
          rw [if_neg hany.1]
          exact ih hany.2
      rw [hnone, if_pos rfl]
      simp [dictLookup, orE]
    · have hlast : dictLookup k' ([(k, v)] : Rec) = none := by
        simp [dictLookup, Ne.symm hk]
      rw [hlast, orE_none_right, if_neg hk]

/-- Updating preserves distinctness of the keys. -/
theorem dictKeys_update_nodup (d : Rec) (k : String) (v : Value)
    (h : (dictKeys d).Nodup) : (dictKeys (dictUpdate d k v)).Nodup := by
  unfold dictUpdate dictKeys
  by_cases hany : d.any (fun p => p.1 == k) = true
  · rw [if_pos hany]
    have hmap : (d.map (fun p => if p.1 == k then (k, v) else p)).map (fun p => p.1) =
        d.map (fun p => p.1) := by
      rw [List.map_map]
      apply List.map_congr_left
      intro p _
      by_cases hp : (p.1 == k) = true
      · have hp1 : p.1 = k := by simpa using hp
        simp only [Function.comp, if_pos hp, hp1]
        simp
      · simp only [Function.comp, if_neg hp]
    rw [hmap]
    exact h
  · rw [if_neg hany, List.map_append]
    apply List.Nodup.append h (by simp)
    intro a ha hb
    simp only [List.map_cons, List.map_nil, List.mem_singleton] at hb
    subst hb
    obtain ⟨p, hp, hpk⟩ := List.mem_map.mp ha
    apply absurd _ (fun hc => hany hc)
    exact List.any_eq_true.mpr ⟨p, hp, by simp [hpk]⟩

/-! ### Derived per-line observations -/

/-- Lines whose rule appends a record immediately (`ok`, `unbound`). -/
def emitB (t : String) : Bool :=
  match classify t with
  | .ack => true
  | .unboundTerm => true
  | _ => false

/-- Lines matching a zone-listing or statistics rule (the ones that set
`itrparse` and feed the aggregate dict). -/
def aggB (t : String) : Bool :=
  match classify t with
  | .zstatic => true
  | .zredirect => true
  | .zserial => true
  | .stats => true
  | _ => false

/-- The key/value contribution of one (stripped) aggregate-shaped line,
exactly as the corresponding branch of the loop body computes it
(`none` when the line is not aggregate-shaped or its extraction faults). -/
def aggPair (t : String) : Option (String × Value) :=
  match classify t with
  | .zstatic => some ((pySplit " " 1 t).headD "", Value.vstr "static")
  | .zredirect => some ((pySplit " " 1 t).headD "", Value.vstr "redirect")
  | .zserial =>
    match (pySplit "\t" 2 t).get? 1 with
    | none => none
    | some f1 =>
      match pyIntOpt (pyStripChars "serial " f1) with
      | none => none
      | some serial => some ((pySplit "\t" 2 t).headD "", Value.vint serial)
  | .stats =>
    match (pySplit "=" 1 t).get? 1 with
    | none => none
    | some v1 =>
      if floatKeyB ((pySplit "=" 1 t).headD "") then
        if pyFloatValid v1 then some ((pySplit "=" 1 t).headD "", Value.vfloat (pyStripWs v1))
        else none
      else
        match pyIntOpt v1 with
        | none => none
        | some n => some ((pySplit "=" 1 t).headD "", Value.vint n)
  | _ => none

/-- The value line `l` contributes to aggregate key `k` (if any). -/
def contribAt (k : String) (l : String) : Option Value :=
  match aggPair (pyStripWs l) with
  | some kv => if kv.1 = k then some kv.2 else none
  | none => none

/-- First `some` produced by `f` along the list. -/
def findSomeL (f : α → Option β) : List α → Option β
  | [] => none
  | a :: as =>
    match f a with
    | some b => some b
    | none => findSomeL f as

/-- The value the LAST aggregate-shaped line writing key `k` contributes. -/
def lastContrib (k : String) (lines : List String) : Option Value :=
  findSomeL (contribAt k) lines.reverse

/-- Whether a value is Python text. -/
def isTextV : Value → Bool
  | .vstr _ => true
  | .vint _ => false
  | .vfloat _ => false

/-- Whether every field of a record is text. -/
def recText (r : Rec) : Bool := r.all (fun kv => isTextV kv.2)

theorem findSomeL_append (f : α → Option β) (l1 l2 : List α) :
    findSomeL f (l1 ++ l2) = orE (findSomeL f l1) (findSomeL f l2) := by
  induction l1 with
  | nil => rfl
  | cons a as ih =>
    simp only [List.cons_append, findSomeL]
    cases f a
    · simpa [orE] using ih
    · simp [orE]

theorem lastContrib_cons (k : String) (l : String) (rest : List String) :
    lastContrib k (l :: rest) = orE (lastContrib k rest) (contribAt k l) := by
  unfold lastContrib
  rw [List.reverse_cons, findSomeL_append]
  cases h : contribAt k l <;> simp [findSomeL, h]

theorem recText_update (d : Rec) (k : String) (v : Value)
    (hd : recText d = true) (hv : isTextV v = true) :
    recText (dictUpdate d k v) = true := by
  unfold recText dictUpdate at *
  by_cases hany : d.any (fun p => p.1 == k) = true
  · rw [if_pos hany, List.all_eq_true]
    intro kv hkv
    obtain ⟨p, hp, heq⟩ := List.mem_map.mp hkv
    by_cases hpk : (p.1 == k) = true
    · rw [if_pos hpk] at heq
      rw [← heq]
      exact hv
    · rw [if_neg hpk] at heq
      rw [← heq]
      exact List.all_eq_true.mp hd p hp
  · rw [if_neg hany]
    simp only [List.all_append, hd, Bool.true_and, List.all_cons, List.all_nil]
    simp [hv]

/-- Everything the later inductions need about one successful loop
iteration: how the output length, the aggregate flag, the aggregate dict,
the text-ness of the status-side data and the unboundness of `status`
evolve. -/
theorem processCore_ok_spec (st : PState) (t : String) (st' : PState)
    (h : processCore st t = .ok st') :
    st'.rawOutput.length = st.rawOutput.length + (if emitB t then 1 else 0) ∧
    st'.itrparse = (st.itrparse || aggB t) ∧
    st'.itr = (match aggPair t with
               | some kv => dictUpdate st.itr kv.1 kv.2
               | none => st.itr) ∧
    ((∀ r ∈ st.rawOutput, recText r = true) →
     (∀ rec0, st.status = some rec0 → recText rec0 = true) →
     ((∀ r ∈ st'.rawOutput, recText r = true) ∧
      (∀ rec0, st'.status = some rec0 → recText rec0 = true))) ∧
    (st.status = none → classify t ≠ .version → st'.status = none) := by
  unfold processCore at h
  split at h
  · -- ack
    rename_i hc
    injection h with h
    subst h
    refine ⟨by simp [emitB, hc], by simp [aggB, hc], by simp [aggPair, hc], ?_, ?_⟩
    · intro h1 h2
      refine ⟨?_, ?_⟩
      · intro r hr
        simp only [List.mem_append, List.mem_singleton] at hr
        rcases hr with hr | hr
        · exact h1 r hr
        · subst hr
          rfl
      · intro rec0 hrec0
        exact h2 rec0 hrec0
    · intro hn _
      exact hn
  · -- version
    rename_i hc
    split at h
    · exact Except.noConfusion h
    · rename_i v1 hv
      injection h with h
      subst h
      refine ⟨by simp [emitB, hc], by simp [aggB, hc], by simp [aggPair, hc], ?_, ?_⟩
      · intro h1 h2
        refine ⟨fun r hr => h1 r hr, ?_⟩
        intro rec0 hrec0
        simp only [Option.some.injEq] at hrec0
        subst hrec0
        rfl
      · intro _ hcon
        exact absurd hc hcon
  · -- verbosity
    rename_i hc
    split at h
    · exact Except.noConfusion h
    · rename_i v1 hv
      split at h
      · exact Except.noConfusion h
      · rename_i status hst
        injection h with h
        subst h
        refine ⟨by simp [emitB, hc], by simp [aggB, hc], by simp [aggPair, hc], ?_, ?_⟩
        · intro h1 h2
          refine ⟨fun r hr => h1 r hr, ?_⟩
          intro rec0 hrec0
          simp only [Option.some.injEq] at hrec0
          subst hrec0
          exact recText_update status "verbosity" (Value.vstr v1) (h2 status hst) rfl
        · intro hn _
          rw [hn] at hst
          exact Option.noConfusion hst
  · -- threads
    rename_i hc
    split at h
    · exact Except.noConfusion h
    · rename_i v1 hv
      split at h
      · exact Except.noConfusion h
      · rename_i status hst
        injection h with h
        subst h
        refine ⟨by simp [emitB, hc], by simp [aggB, hc], by simp [aggPair, hc], ?_, ?_⟩
        · intro h1 h2
          refine ⟨fun r hr => h1 r hr, ?_⟩
          intro rec0 hrec0
          simp only [Option.some.injEq] at hrec0
          subst hrec0
          exact recText_update status "threads" (Value.vstr v1) (h2 status hst) rfl
        · intro hn _
          rw [hn] at hst
          exact Option.noConfusion hst
  · -- modules
    rename_i hc
    split at h
    · exact Except.noConfusion h
    · rename_i v1 hv
      split at h
      · exact Except.noConfusion h
      · rename_i status hst
        injection h with h
        subst h
        refine ⟨by simp [emitB, hc], by simp [aggB, hc], by simp [aggPair, hc], ?_, ?_⟩
        · intro h1 h2
          refine ⟨fun r hr => h1 r hr, ?_⟩
          intro rec0 hrec0
          simp only [Option.some.injEq] at hrec0
          subst hrec0
          exact recText_update status "modules" (Value.vstr v1) (h2 status hst) rfl
        · intro hn _
          rw [hn] at hst
          exact Option.noConfusion hst
  · -- uptime
    rename_i hc
    split at h
    · exact Except.noConfusion h
    · rename_i v1 hv
      split at h
      · exact Except.noConfusion h
      · rename_i status hst
        injection h with h
        subst h
        refine ⟨by simp [emitB, hc], by simp [aggB, hc], by simp [aggPair, hc], ?_, ?_⟩
        · intro h1 h2
          refine ⟨fun r hr => h1 r hr, ?_⟩
          intro rec0 hrec0
          simp only [Option.some.injEq] at hrec0
          subst hrec0
          exact recText_update status "uptime" (Value.vstr (pyStripChars " seconds" v1))
            (h2 status hst) rfl
        · intro hn _
          rw [hn] at hst
          exact Option.noConfusion hst
  · -- options
    rename_i hc
    split at h
    · exact Except.noConfusion h
    · rename_i v1 hv
      split at h
      · exact Except.noConfusion h
      · rename_i status hst
        injection h with h
        subst h
        refine ⟨by simp [emitB, hc], by simp [aggB, hc], by simp [aggPair, hc], ?_, ?_⟩
        · intro h1 h2
          refine ⟨fun r hr => h1 r hr, ?_⟩
          intro rec0 hrec0
          simp only [Option.some.injEq] at hrec0
          subst hrec0
          exact recText_update status "options" (Value.vstr v1) (h2 status hst) rfl
        · intro hn _
          rw [hn] at hst
          exact Option.noConfusion hst
  · -- unboundTerm
    rename_i hc
    split at h
    · exact Except.noConfusion h
    · rename_i t2 hv
      split at h
      · exact Except.noConfusion h
      · rename_i status hst
        injection h with h
        subst h
        refine ⟨by simp [emitB, hc], by simp [aggB, hc], by simp [aggPair, hc], ?_, ?_⟩
        · intro h1 h2
          have hrec : recText (dictUpdate status "pid" (Value.vstr (pyStripChars ")" t2))) = true :=
            recText_update status "pid" (Value.vstr (pyStripChars ")" t2)) (h2 status hst) rfl
          refine ⟨?_, ?_⟩
          · intro r hr
            simp only [List.mem_append, List.mem_singleton] at hr
            rcases hr with hr | hr
            · exact h1 r hr
            · subst hr
              exact hrec
          · intro rec0 hrec0
            simp only [Option.some.injEq] at hrec0
            subst hrec0
            exact hrec
        · intro hn _
          rw [hn] at hst
          exact Option.noConfusion hst
  · -- zstatic
    rename_i hc
    injection h with h
    subst h
    refine ⟨by simp [emitB, hc], by simp [aggB, hc], by simp [aggPair, hc], ?_, ?_⟩
    · intro h1 h2
      exact ⟨fun r hr => h1 r hr, fun rec0 hrec0 => h2 rec0 hrec0⟩
    · intro hn _
      exact hn
  · -- zredirect
    rename_i hc
    injection h with h
    subst h
    refine ⟨by simp [emitB, hc], by simp [aggB, hc], by simp [aggPair, hc], ?_, ?_⟩
    · intro h1 h2
      exact ⟨fun r hr => h1 r hr, fun rec0 hrec0 => h2 rec0 hrec0⟩
    · intro hn _
      exact hn
  · -- zserial
    rename_i hc
    split at h
    · exact Except.noConfusion h
    · rename_i f1 hf
      split at h
      · exact Except.noConfusion h
      · rename_i serial hser
        injection h with h
        subst h
        refine ⟨by simp [emitB, hc], by simp [aggB, hc], by simp [aggPair, hc, ← List.get?_eq_getElem?, hf, hser], ?_, ?_⟩
        · intro h1 h2
          exact ⟨fun r hr => h1 r hr, fun rec0 hrec0 => h2 rec0 hrec0⟩
        · intro hn _
          exact hn
  · -- stats
    rename_i hc
    split at h
    · exact Except.noConfusion h
    · rename_i v1 hv
      split at h
      · -- float key
        rename_i hfk
        split at h
        · rename_i hfv
          injection h with h
          subst h
          rw [List.headD_eq_head?_getD] at hfk
          refine ⟨by simp [emitB, hc], by simp [aggB, hc],
            by simp [aggPair, hc, ← List.get?_eq_getElem?, hv, hfk, hfv], ?_, ?_⟩
          · intro h1 h2
            exact ⟨fun r hr => h1 r hr, fun rec0 hrec0 => h2 rec0 hrec0⟩
          · intro hn _
            exact hn
        · exact Except.noConfusion h
      · -- int key
        rename_i hfk
        split at h
        · exact Except.noConfusion h
        · rename_i n hn
          injection h with h
          subst h
          rw [List.headD_eq_head?_getD] at hfk
          refine ⟨by simp [emitB, hc], by simp [aggB, hc],
            by simp [aggPair, hc, ← List.get?_eq_getElem?, hv, hfk, hn], ?_, ?_⟩
          · intro h1 h2
            exact ⟨fun r hr => h1 r hr, fun rec0 hrec0 => h2 rec0 hrec0⟩
          · intro hn' _
            exact hn'
  · -- skip
    rename_i hc
    injection h with h
    subst h
    refine ⟨by simp [emitB, hc], by simp [aggB, hc], by simp [aggPair, hc], ?_, ?_⟩
    · intro h1 h2
      exact ⟨fun r hr => h1 r hr, fun rec0 hrec0 => h2 rec0 hrec0⟩
    · intro hn _
      exact hn

theorem runLines_append (xs ys : List String) (st : PState) :
    runLines st (xs ++ ys) =
      (match runLines st xs with
       | .ok st1 => runLines st1 ys
       | .error e => .error e) := by
  induction xs generalizing st with
  | nil => rfl
  | cons l rest ih =>
    simp only [List.cons_append, runLines]
    cases hp : processLine st l <;> simp [hp, ih]

/-- The loop invariants, accumulated over a whole (successful) run:
output length counts the emitting lines, `itrparse` records whether any
aggregate-shaped line occurred, the aggregate dict realizes
"last write wins" with distinct keys, status-side data stays text, and
`status` stays unbound while no `version:` line has been seen. -/
theorem runLines_spec (lines : List String) : ∀ (st st' : PState),
    runLines st lines = .ok st' →
    st'.rawOutput.length = st.rawOutput.length + lines.countP (fun l => emitB (pyStripWs l)) ∧
    st'.itrparse = (st.itrparse || lines.any (fun l => aggB (pyStripWs l))) ∧
    (∀ k, dictLookup k st'.itr = orE (lastContrib k lines) (dictLookup k st.itr)) ∧
    ((dictKeys st.itr).Nodup → (dictKeys st'.itr).Nodup) ∧
    ((∀ r ∈ st.rawOutput, recText r = true) →
     (∀ rec0, st.status = some rec0 → recText rec0 = true) →
     ((∀ r ∈ st'.rawOutput, recText r = true) ∧
      (∀ rec0, st'.status = some rec0 → recText rec0 = true))) ∧
    (st.status = none → (∀ l ∈ lines, classify (pyStripWs l) ≠ .version) → st'.status = none) := by
  induction lines with
  | nil =>
    intro st st' h
    injection h with h
    subst h
    refine ⟨by simp, by simp, ?_, fun a => a, fun a b => ⟨a, b⟩, fun a _ => a⟩
    intro k
    simp [lastContrib, findSomeL, orE]
  | cons l rest ih =>
    intro st st' h
    simp only [runLines] at h
    split at h
    · rename_i st1 heq
      have hstep := processCore_ok_spec st (pyStripWs l) st1 heq
      obtain ⟨e1, e2, e3, e4, e5⟩ := hstep
      obtain ⟨r1, r2, r3, r4, r5, r6⟩ := ih st1 st' h
      refine ⟨?_, ?_, ?_, ?_, ?_, ?_⟩
      · rw [r1, e1, List.countP_cons]
        by_cases he : emitB (pyStripWs l) = true <;> simp [he] <;> omega
      · rw [r2, e2, List.any_cons, Bool.or_assoc]
      · intro k
        rw [r3 k, lastContrib_cons, ← orE_assoc]
        congr 1
        cases hap : aggPair (pyStripWs l) with
        | none =>
          simp only [hap] at e3
          simp [contribAt, hap, e3, orE]
        | some kv =>
          simp only [hap] at e3
          rw [e3, dictLookup_update]
          unfold contribAt
          rw [hap]
          by_cases hk : k = kv.1
          · rw [if_pos hk]
            simp [hk, orE]
          · rw [if_neg hk]
            have : ¬ (kv.1 = k) := fun hc => hk hc.symm
            simp [this, orE]
      · intro hnodup
        apply r4
        cases hap : aggPair (pyStripWs l) with
        | none =>
          simp only [hap] at e3
          rw [e3]
          exact hnodup
        | some kv =>
          simp only [hap] at e3
          rw [e3]
          exact dictKeys_update_nodup st.itr kv.1 kv.2 hnodup
      · intro h1 h2
        have hmid := e4 h1 h2
        exact r5 hmid.1 hmid.2
      · intro hn hall
        have hst1 : st1.status = none := e5 hn (hall l (by simp))
        exact r6 hst1 (fun p hp => hall p (by simp [hp]))
    · exact Except.noConfusion h

/-! ### Whitespace-only input produces no recognized line -/

theorem dropLeft_all (cs : List Char) :
    ∀ l : List Char, l.all (fun c => cs.contains c) = true → dropLeft cs l = []
  | [], _ => rfl
  | c :: rest, h => by
    simp only [List.all_cons, Bool.and_eq_true] at h
    simp only [dropLeft, if_pos h.1]
    exact dropLeft_all cs rest h.2

theorem stripChars_all (cs : List Char) (l : List Char)
    (h : l.all (fun c => cs.contains c) = true) : stripChars cs l = [] := by
  unfold stripChars
  rw [dropLeft_all cs l h]
  rfl

theorem splitLinesAux_all (P : Char → Bool) :
    ∀ (n : Nat) (s cur : List Char), s.length ≤ n → cur.all P = true → s.all P = true →
      ∀ l ∈ splitLinesAux cur s, l.all P = true := by
  intro n
  induction n with
  | zero =>
    intro s cur hlen hc hs l hl
    have hs0 : s = [] := List.eq_nil_of_length_eq_zero (Nat.le_zero.mp hlen)
    subst hs0
    simp only [splitLinesAux, List.mem_singleton] at hl
    subst hl
    simpa using hc
  | succ n ihn =>
    intro s cur hlen hc hs l hl
    cases s with
    | nil =>
      simp only [splitLinesAux, List.mem_singleton] at hl
      subst hl
      simpa using hc
    | cons c rest =>
      have hlen' : rest.length ≤ n := by
        simp only [List.length_cons] at hlen
        omega
      simp only [List.all_cons, Bool.and_eq_true] at hs
      by_cases h1 : c = '\n'
      · subst h1
        rw [show splitLinesAux cur ('\n' :: rest) =
            cur.reverse :: (if rest.isEmpty then [] else splitLinesAux [] rest) from by
          simp [splitLinesAux]] at hl
        simp only [List.mem_cons] at hl
        rcases hl with hl | hl
        · subst hl
          simpa using hc
        · by_cases h2 : rest.isEmpty = true
          · rw [if_pos h2] at hl
            simp at hl
          · rw [if_neg h2] at hl
            exact ihn rest [] hlen' rfl hs.2 l hl
      · by_cases h2 : c = '\r'
        · subst h2
          cases rest with
          | nil =>
            rw [show splitLinesAux cur ['\r'] = [cur.reverse] from by simp [splitLinesAux]] at hl
            simp only [List.mem_singleton] at hl
            subst hl
            simpa using hc
          | cons c2 rest2 =>
            simp only [List.all_cons, Bool.and_eq_true] at hs
            by_cases h3 : c2 = '\n'
            · subst h3
              rw [show splitLinesAux cur ('\r' :: '\n' :: rest2) =
                  cur.reverse :: (if rest2.isEmpty then [] else splitLinesAux [] rest2) from by
                simp [splitLinesAux]] at hl
              simp only [List.mem_cons] at hl
              rcases hl with hl | hl
              · subst hl
                simpa using hc
              · by_cases h4 : rest2.isEmpty = true
                · rw [if_pos h4] at hl
                  simp at hl
                · rw [if_neg h4] at hl
                  have h2len : rest2.length ≤ n := by
                    simp only [List.length_cons] at hlen
                    omega
                  exact ihn rest2 [] h2len rfl hs.2.2 l hl
            · rw [show splitLinesAux cur ('\r' :: c2 :: rest2) =
                  cur.reverse ::
                    (if (c2 :: rest2).isEmpty then [] else splitLinesAux [] (c2 :: rest2)) from by
                simp [splitLinesAux, h3]] at hl
              simp only [List.isEmpty_cons, if_neg] at hl
              simp only [List.mem_cons] at hl
              rcases hl with hl | hl
              · subst hl
                simpa using hc
              · refine ihn (c2 :: rest2) [] hlen' rfl ?_ l hl
                simp only [List.all_cons, Bool.and_eq_true]
                exact ⟨hs.2.1, hs.2.2⟩
        · rw [show splitLinesAux cur (c :: rest) = splitLinesAux (c :: cur) rest from by
            simp [splitLinesAux, h1, h2]] at hl
          refine ihn rest (c :: cur) hlen' ?_ hs.2 l hl
          simp only [List.all_cons, Bool.and_eq_true]
          exact ⟨hs.1, hc⟩

/-- When the `has_data` guard fails, every line of the input strips to the
empty string (so it matches no classification rule). -/
theorem procLines_ws (data : String) (h : pyHasData data = false) :
    ∀ l ∈ procLines data, pyStripWs l = "" := by
  intro l hl
  by_cases hd : data = ""
  · subst hd
    have : procLines "" = [] := rfl
    rw [this] at hl
    simp at hl
  · have hne : (data != "") = true := by simp [hd]
    unfold pyHasData at h
    rw [hne, Bool.true_and, Bool.not_eq_false'] at h
    have hl2 : l ∈ pySplitLines data := (List.mem_filter.mp hl).1
    unfold pySplitLines at hl2
    cases hdd : data.data with
    | nil =>
      apply absurd _ hd
      cases data
      simp at hdd
      simp [hdd]
    | cons c cs =>
      rw [hdd] at hl2
      simp only [] at hl2
      obtain ⟨lc, hlc, hmk⟩ := List.mem_map.mp hl2
      have hall : lc.all (fun ch => pyWs.contains ch) = true := by
        refine splitLinesAux_all _ (c :: cs).length (c :: cs) [] le_rfl rfl ?_ lc hlc
        rw [← hdd]
        exact h
      rw [← hmk]
      unfold pyStripWs
      rw [show (String.mk lc).data = lc from rfl, stripChars_all pyWs lc hall]

theorem procLines_ws_noagg (data : String) (h : pyHasData data = false) :
    (procLines data).any (fun l => aggB (pyStripWs l)) = false := by
  rw [List.any_eq_false]
  intro x hx
  rw [procLines_ws data h x hx]
  decide

theorem procLines_ws_noemit (data : String) (h : pyHasData data = false) :
    (procLines data).countP (fun l => emitB (pyStripWs l)) = 0 := by
  rw [List.countP_eq_zero]
  intro x hx
  rw [procLines_ws data h x hx]
  decide

/-! ### From the loop to `parse` -/

theorem parse_true_eq (data : String) (out : List Rec) (h : parse data true = .ok out) :
    parseRaw data = .ok out := by
  unfold parse at h
  split at h
  · exact Except.noConfusion h
  · rename_i o heq
    have ho : o = out := by simpa using h
    rw [heq, ho]

theorem parseRaw_shape (data : String) (out : List Rec) (hd : pyHasData data = true)
    (h : parseRaw data = .ok out) :
    ∃ st, runLines initState (procLines data) = .ok st ∧
      out = st.rawOutput ++ (if st.itrparse then [st.itr] else []) := by
  cases hrun : runLines initState (procLines data) with
  | ok st =>
    refine ⟨st, rfl, ?_⟩
    unfold parseRaw at h
    rw [hd, hrun] at h
    simpa using h.symm
  | error e =>
    unfold parseRaw at h
    rw [hd, hrun] at h
    simp at h

theorem parseRaw_empty (data : String) (out : List Rec) (hd : pyHasData data = false)
    (h : parseRaw data = .ok out) : out = [] := by
  unfold parseRaw at h
  rw [hd] at h
  simpa using h.symm

/-- C2: for every input, the output holds at most one aggregate record, it
is present exactly when some line matched a zone-listing or statistics
rule, and it sits at the very end, after every status and acknowledgement
record (`pre` holds exactly the records the `ok`/`unbound` rules emitted,
in input order). -/
theorem unbound_c2 (data : String) (out : List Rec)
    (h : parse data true = .ok out) :
    ∃ pre tail, out = pre ++ tail ∧ tail.length ≤ 1 ∧
      (tail ≠ [] ↔ (procLines data).any (fun l => aggB (pyStripWs l)) = true) ∧
      pre.length = (procLines data).countP (fun l => emitB (pyStripWs l)) := by
  have hpr := parse_true_eq data out h
  by_cases hd : pyHasData data = true
  · obtain ⟨st, hrun, hout⟩ := parseRaw_shape data out hd hpr
    obtain ⟨r1, r2, -, -, -, -⟩ := runLines_spec (procLines data) initState st hrun
    have hany : st.itrparse = (procLines data).any (fun l => aggB (pyStripWs l)) := by
      rw [r2, show initState.itrparse = false from rfl, Bool.false_or]
    refine ⟨st.rawOutput, (if st.itrparse then [st.itr] else []), hout, ?_, ?_, ?_⟩
    · cases st.itrparse <;> simp
    · rw [← hany]
      cases hitr : st.itrparse <;> simp
    · rw [r1, show initState.rawOutput = ([] : List Rec) from rfl]
      simp
  · have hd' : pyHasData data = false := by simpa using hd
    have hout : out = [] := parseRaw_empty data out hd' hpr
    subst hout
    refine ⟨[], [], rfl, by simp, ?_, ?_⟩
    · simp [procLines_ws_noagg data hd']
    · simp [procLines_ws_noemit data hd']

/-- C8: a line matching a prefix rule but lacking its internal delimiter
crashes the parse with the index fault (it is not skipped): a bare
`unbound` line has no third space token, and a metric-prefix line without
`=` has no second `=`-field. -/
theorem unbound_c8 :
    parse "unbound" true = .error .indexError ∧
    parse "total.foo" true = .error .indexError := ⟨rfl, rfl⟩

/-- C10: whenever several aggregate-shaped lines produce the same key, the
aggregate record (the last output element) maps that key to the value of
the LAST such line in input order, and holds a single value per key (its
keys are distinct). -/
theorem unbound_c10 (data : String) (out : List Rec)
    (h : parse data true = .ok out)
    (hagg : (procLines data).any (fun l => aggB (pyStripWs l)) = true) :
    ∃ agg, out.getLast? = some agg ∧ (dictKeys agg).Nodup ∧
      ∀ k, dictLookup k agg = lastContrib k (procLines data) := by
  have hpr := parse_true_eq data out h
  by_cases hd : pyHasData data = true
  · obtain ⟨st, hrun, hout⟩ := parseRaw_shape data out hd hpr
    obtain ⟨-, r2, r3, r4, -, -⟩ := runLines_spec (procLines data) initState st hrun
    have hitr : st.itrparse = true := by
      rw [r2, show initState.itrparse = false from rfl, Bool.false_or]
      exact hagg
    refine ⟨st.itr, ?_, ?_, ?_⟩
    · rw [hout, hitr]
      simp [List.getLast?_concat]
    · exact r4 (by simp [show initState.itr = ([] : Rec) from rfl, dictKeys])
    · intro k
      rw [r3 k, show dictLookup k initState.itr = none from rfl, orE_none_right]
  · have hd' : pyHasData data = false := by simpa using hd
    rw [procLines_ws_noagg data hd'] at hagg
    exact Bool.noConfusion hagg

/-- C6 (amended): with `raw=true` every field of every status or
acknowledgement record is text; only the trailing aggregate record (if
any) can carry non-text values (it is typed at parse time). -/
theorem unbound_c6_amended (data : String) (out : List Rec)
    (h : parse data true = .ok out) :
    ∃ pre tail, out = pre ++ tail ∧ tail.length ≤ 1 ∧
      (tail ≠ [] → (procLines data).any (fun l => aggB (pyStripWs l)) = true) ∧
      ∀ r ∈ pre, recText r = true := by
  have hpr := parse_true_eq data out h
  by_cases hd : pyHasData data = true
  · obtain ⟨st, hrun, hout⟩ := parseRaw_shape data out hd hpr
    obtain ⟨-, r2, -, -, r5, -⟩ := runLines_spec (procLines data) initState st hrun
    have hany : st.itrparse = (procLines data).any (fun l => aggB (pyStripWs l)) := by
      rw [r2, show initState.itrparse = false from rfl, Bool.false_or]
    have htext := r5 (by intro r hr; simp [show initState.rawOutput = ([] : List Rec) from rfl] at hr)
      (by intro rec0 hrec0; exact Option.noConfusion hrec0)
    refine ⟨st.rawOutput, (if st.itrparse then [st.itr] else []), hout, ?_, ?_, ?_⟩
    · cases st.itrparse <;> simp
    · rw [← hany]
      cases hitr : st.itrparse <;> simp
    · exact htext.1
  · have hd' : pyHasData data = false := by simpa using hd
    have hout : out = [] := parseRaw_empty data out hd' hpr
    subst hout
    exact ⟨[], [], rfl, by simp, by simp, by simp⟩

/-- C6 counterexample: with `raw=true` a statistics line still yields an
integer-typed field — raw mode does NOT leave all fields as text. -/
theorem unbound_c6_cex :
    parse "thread0.num.queries=5" true = .ok [[("thread0.num.queries", Value.vint 5)]] ∧
    isTextV (Value.vint 5) = false := ⟨rfl, rfl⟩

/-! ### C3: the uptime strip -/

/-- The claim's reading of the uptime strip: remove characters of the set
from the TAIL only, never from the front. -/
def stripTailOnly (cs : String) (s : String) : String :=
  String.mk (dropLeft cs.data s.data.reverse).reverse

/-- The uptime value as the claim computes it: text after the first
`": "`, tail-side charset strip of `" seconds"`. -/
def uptimeClaimValue (l : String) : Option String :=
  ((pySplit ": " 1 (pyStripWs l)).get? 1).map (fun v => stripTailOnly " seconds" v)

/-- C3 counterexample: on `uptime: s5` the code stores uptime `"5"` (Python
`strip` removes the leading `s` too), while the claim's tail-only strip
keeps `"s5"`; the parsed record refutes the claim at this input. -/
theorem unbound_c3_cex :
    parse "version: x\nuptime: s5\nunbound (pid 1) a" true =
      .ok [[("version", Value.vstr "x"), ("uptime", Value.vstr "5"), ("pid", Value.vstr "1")]] ∧
    uptimeClaimValue "uptime: s5" = some "s5" ∧
    dictLookup "uptime"
        [("version", Value.vstr "x"), ("uptime", Value.vstr "5"), ("pid", Value.vstr "1")] ≠
      (uptimeClaimValue "uptime: s5").map Value.vstr :=
  ⟨rfl, rfl, by decide⟩

/-- C3 (amended): for an `uptime:` line the accumulated `uptime` is the
text after the first `": "` with the characters of `" seconds"` stripped
from BOTH ends (Python's character-set `strip`), so leading characters of
the set are removed as well. -/
theorem unbound_c3_amended (st : PState) (rec0 : Rec) (l v : String)
    (hst : st.status = some rec0)
    (hc : classify (pyStripWs l) = .uptime)
    (hv : (pySplit ": " 1 (pyStripWs l)).get? 1 = some v) :
    processLine st l =
      .ok { st with
            status := some (dictUpdate rec0 "uptime" (Value.vstr (pyStripChars " seconds" v))) } := by
  unfold processLine processCore
  rw [hc, hv, hst]

theorem unbound_c3_amended_witness :
    processLine ⟨[], false, [], some []⟩ "uptime: 123 seconds" =
      .ok ⟨[], false, [], some [("uptime", Value.vstr "123")]⟩ :=
  unbound_c3_amended ⟨[], false, [], some []⟩ [] "uptime: 123 seconds" "123 seconds"
    rfl (by decide) (by decide)

/-! ### C4: the serial strip -/

/-- The claim's reading of the serial strip: remove the literal phrase
`"serial "` (as a prefix), not a character-set strip. -/
def stripPhrase (p s : String) : String :=
  if isPre p.data s.data then String.mk (s.data.drop p.data.length) else s

/-- C4 counterexample: on the tab field `"serial 12e"` the code's
character-set strip (`.strip('serial ')`) leaves `"12"` (the trailing `e`
is in the set) and the record maps the zone to the integer 12, while the
claim's phrase strip leaves `"12e"`, which is no integer at all. -/
theorem unbound_c4_cex :
    parse "zone.\tserial 12e" true = .ok [[("zone.", Value.vint 12)]] ∧
    stripPhrase "serial " "serial 12e" = "12e" ∧
    pyIntOpt (stripPhrase "serial " "serial 12e") = none :=
  ⟨rfl, rfl, rfl⟩

/-- C4 (amended): for a line containing `"serial "`, split on tab (at most
3 fields); the first field is the zone name and the mapped value is the
integer obtained from the second field by stripping the characters of the
SET `"serial "` from both ends (Python `str.strip('serial ')`), then
converting. -/
theorem unbound_c4_amended (st : PState) (l f : String) (n : Int)
    (hc : classify (pyStripWs l) = .zserial)
    (hf : (pySplit "\t" 2 (pyStripWs l)).get? 1 = some f)
    (hn : pyIntOpt (pyStripChars "serial " f) = some n) :
    processLine st l =
      .ok { st with
            itrparse := true,
            itr := dictUpdate st.itr ((pySplit "\t" 2 (pyStripWs l)).headD "") (Value.vint n) } := by
  unfold processLine processCore
  rw [hc, hf]
  dsimp only
  rw [hn]

theorem unbound_c4_amended_witness :
    processLine initState "zone.\tserial 77" =
      .ok ⟨[], true, [("zone.", Value.vint 77)], none⟩ :=
  unbound_c4_amended initState "zone.\tserial 77" "serial 77" 77
    (by decide) (by decide) (by decide)

/-! ### C5: statistics values -/

/-- The statistics value as the spec words it: parsed as a float (kept as
its stripped literal) exactly when the key starts with `time.` or ends
with `.recursion.time.avg`, `.requestlist.avg` or `.recursion.time.median`
(that is, `floatKeyB`), otherwise parsed as an integer. -/
def statValueSpec (k v : String) : Option Value :=
  if floatKeyB k then
    if pyFloatValid v then some (Value.vfloat (pyStripWs v)) else none
  else (pyIntOpt v).map Value.vint

/-- C5: a statistics line splits on the first `=`; the aggregate dict maps
the key to the parsed value, float-typed iff the key satisfies the
`time.` / `.recursion.time.avg` / `.requestlist.avg` /
`.recursion.time.median` condition, integer-typed otherwise. -/
theorem unbound_c5 (st : PState) (l k v : String) (val : Value)
    (hc : classify (pyStripWs l) = .stats)
    (hk : (pySplit "=" 1 (pyStripWs l)).headD "" = k)
    (hv : (pySplit "=" 1 (pyStripWs l)).get? 1 = some v)
    (hval : statValueSpec k v = some val) :
    processLine st l =
      .ok { st with itrparse := true, itr := dictUpdate st.itr k val } := by
  unfold processLine processCore
  rw [hc, hv, hk]
  dsimp only
  unfold statValueSpec at hval
  by_cases hfk : floatKeyB k = true
  · rw [if_pos hfk] at hval
    by_cases hfv : pyFloatValid v = true
    · rw [if_pos hfv] at hval
      injection hval with hval
      rw [if_pos hfk, if_pos hfv, hval]
    · rw [if_neg hfv] at hval
      exact Option.noConfusion hval
  · rw [if_neg hfk] at hval
    cases hio : pyIntOpt v with
    | none =>
      rw [hio] at hval
      exact Option.noConfusion hval
    | some n =>
      rw [hio] at hval
      simp only [Option.map_some'] at hval
      injection hval with hval
      rw [if_neg hfk]
      dsimp only
      rw [hval]

theorem unbound_c5_witness :
    (processLine initState "time.now=1614556800.123456" =
      .ok ⟨[], true, [("time.now", Value.vfloat "1614556800.123456")], none⟩) ∧
    (processLine initState "thread0.total.queries=12345" =
      .ok ⟨[], true, [("thread0.total.queries", Value.vint 12345)], none⟩) :=
  ⟨unbound_c5 initState "time.now=1614556800.123456" "time.now" "1614556800.123456"
      (Value.vfloat "1614556800.123456") (by decide) (by decide) (by decide) (by decide),
   unbound_c5 initState "thread0.total.queries=12345" "thread0.total.queries" "12345"
      (Value.vint 12345) (by decide) (by decide) (by decide) (by decide)⟩

/-! ### C9: status lines before any `version:` line -/

/-- Whether the loop ran to completion on these lines. -/
def isOkE : Except PErr PState → Bool
  | .ok _ => true
  | .error _ => false

/-- A status-field or terminator line carries its expected internal
delimiter / field count (so its subscript is in range and the fault that
surfaces is the `status` access). -/
def fieldDelimOk (t : String) : Bool :=
  match classify t with
  | .verbosity => ((pySplit ":" 1 t).get? 1).isSome
  | .threads => ((pySplit ": " 1 t).get? 1).isSome
  | .modules => ((pySplit ": " 1 t).get? 1).isSome
  | .uptime => ((pySplit ": " 1 t).get? 1).isSome
  | .options => ((pySplit ": " 1 t).get? 1).isSome
  | .unboundTerm => ((pySplit " " 4 t).get? 2).isSome
  | _ => false

/-- C9 counterexample: `threads:1` is a status-field line (it starts with
`threads:`) occurring before any `version:` line, yet the parse fails with
the INDEX fault, not the unbound-variable fault — the missing `": "`
delimiter faults before `status` is ever touched. -/
theorem unbound_c9_cex :
    parse "threads:1" true = .error .indexError ∧
    PErr.indexError ≠ PErr.nameError :=
  ⟨rfl, by decide⟩

/-- C9 (amended): a status-field line (`verbosity:`, `threads:`,
`modules:`, `uptime:`, `options:`) or an `unbound` terminator occurring
before any `version:` line makes the parse fail with the unbound-variable
fault, PROVIDED the line carries its expected internal delimiter / field
count and the earlier lines process without fault (otherwise the
structural fault preempts the `status` access, as the counterexample
shows). -/
theorem unbound_c9_amended (data : String) (pre : List String) (l : String) (rest : List String)
    (hd : pyHasData data = true)
    (hsplit : procLines data = pre ++ l :: rest)
    (hok : isOkE (runLines initState pre) = true)
    (hnov : ∀ p ∈ pre, classify (pyStripWs p) ≠ .version)
    (hcls : classify (pyStripWs l) = .verbosity ∨ classify (pyStripWs l) = .threads ∨
            classify (pyStripWs l) = .modules ∨ classify (pyStripWs l) = .uptime ∨
            classify (pyStripWs l) = .options ∨ classify (pyStripWs l) = .unboundTerm)
    (hdel : fieldDelimOk (pyStripWs l) = true) :
    ∀ b, parse data b = .error .nameError := by
  intro b
  obtain ⟨st, hst⟩ : ∃ st, runLines initState pre = .ok st := by
    cases hrun : runLines initState pre with
    | ok st => exact ⟨st, rfl⟩
    | error e =>
      rw [hrun] at hok
      simp [isOkE] at hok
  have hnone : st.status = none := by
    obtain ⟨-, -, -, -, -, r6⟩ := runLines_spec pre initState st hst
    exact r6 rfl hnov
  have hfail : processLine st l = .error .nameError := by
    unfold fieldDelimOk at hdel
    unfold processLine processCore
    rcases hcls with hc | hc | hc | hc | hc | hc <;> rw [hc] at hdel ⊢ <;> dsimp only at hdel ⊢
    · obtain ⟨v, hv⟩ := Option.isSome_iff_exists.mp hdel
      rw [hv]
      dsimp only
      rw [hnone]
    · obtain ⟨v, hv⟩ := Option.isSome_iff_exists.mp hdel
      rw [hv]
      dsimp only
      rw [hnone]
    · obtain ⟨v, hv⟩ := Option.isSome_iff_exists.mp hdel
      rw [hv]
      dsimp only
      rw [hnone]
    · obtain ⟨v, hv⟩ := Option.isSome_iff_exists.mp hdel
      rw [hv]
      dsimp only
      rw [hnone]
    · obtain ⟨v, hv⟩ := Option.isSome_iff_exists.mp hdel
      rw [hv]
      dsimp only
      rw [hnone]
    · obtain ⟨v, hv⟩ := Option.isSome_iff_exists.mp hdel
      rw [hv]
      dsimp only
      rw [hnone]
  have hrunAll : runLines initState (procLines data) = .error .nameError := by
    rw [hsplit, runLines_append, hst]
    dsimp only
    unfold runLines
    rw [hfail]
  unfold parse parseRaw
  simp [hd, hrunAll]

theorem unbound_c9_amended_witness :
    parse "ok\nverbosity: 1" true = .error .nameError :=
  unbound_c9_amended "ok\nverbosity: 1" ["ok"] "verbosity: 1" []
    (by decide) (by decide) (by decide) (by decide)
    (Or.inl (by decide)) (by decide) true

/-! ### C7: the coercion stage -/

/-- The pointwise effect of `_process` on one field. -/
def coerceRel (kv kv' : String × Value) : Prop :=
  kv'.1 = kv.1 ∧
  (if intList.contains kv.1 then
    ∃ n, convert_to_int kv.2 = some n ∧ kv' = (kv.1, Value.vint n)
   else kv' = kv)

theorem processEntry_spec : ∀ (r r' : Rec), processEntry r = some r' →
    List.Forall₂ coerceRel r r'
  | [], r', h => by
    unfold processEntry mapOptList at h
    injection h with h
    rw [← h]
    exact List.Forall₂.nil
  | kv :: r, r', h => by
    unfold processEntry mapOptList at h
    split at h
    · rename_i b heq
      cases hrest : mapOptList
          (fun kv =>
            if intList.contains kv.1 then
              (convert_to_int kv.2).map (fun n => (kv.1, Value.vint n))
            else some kv) r with
      | none =>
        rw [hrest] at h
        exact Option.noConfusion h
      | some rs =>
        rw [hrest] at h
        simp only [Option.map_some'] at h
        injection h with h
        rw [← h]
        refine List.Forall₂.cons ?_ (processEntry_spec r rs hrest)
        unfold coerceRel
        by_cases hk : intList.contains kv.1 = true
        · rw [if_pos hk] at heq ⊢
          cases hc : convert_to_int kv.2 with
          | none =>
            rw [hc] at heq
            exact Option.noConfusion heq
          | some n =>
            rw [hc] at heq
            simp only [Option.map_some'] at heq
            injection heq with heq
            rw [← heq]
            exact ⟨rfl, n, rfl, rfl⟩
        · rw [if_neg hk] at heq ⊢
          injection heq with heq
          rw [← heq]
          exact ⟨rfl, rfl⟩
    · exact Option.noConfusion h

/-- C7: the coercion stage rewrites, in every record, exactly the fields
named `verbosity`, `threads`, `uptime` or `pid` to the integer conversion
of their value; every other field passes through unchanged, and no record
is added, removed or reordered (the outputs pair off with the inputs). -/
theorem unbound_c7 : ∀ (recs recs' : List Rec), _process recs = some recs' →
    List.Forall₂ (fun r r' => List.Forall₂ coerceRel r r') recs recs'
  | [], recs', h => by
    unfold _process mapOptList at h
    injection h with h
    rw [← h]
    exact List.Forall₂.nil
  | r :: recs, recs', h => by
    unfold _process mapOptList at h
    split at h
    · rename_i r' heq
      cases hrest : mapOptList processEntry recs with
      | none =>
        rw [hrest] at h
        exact Option.noConfusion h
      | some rs =>
        rw [hrest] at h
        simp only [Option.map_some'] at h
        injection h with h
        rw [← h]
        exact List.Forall₂.cons (processEntry_spec r r' heq) (unbound_c7 recs rs hrest)
    · exact Option.noConfusion h

theorem unbound_c7_witness :
    List.Forall₂ (fun r r' => List.Forall₂ coerceRel r r')
      [[("verbosity", Value.vstr " 1"), ("modules", Value.vstr "iterator")],
       [("example.com.", Value.vint 42)]]
      [[("verbosity", Value.vint 1), ("modules", Value.vstr "iterator")],
       [("example.com.", Value.vint 42)]] :=
  unbound_c7
    [[("verbosity", Value.vstr " 1"), ("modules", Value.vstr "iterator")],
     [("example.com.", Value.vint 42)]]
    [[("verbosity", Value.vint 1), ("modules", Value.vstr "iterator")],
     [("example.com.", Value.vint 42)]] rfl

/-! ### C1: well-formed status blocks -/

/-- A well-formed status block of the input: its `version:` line, its
optional field lines, its `unbound` terminator line. -/
structure StatusBlock where
  vline : String
  fields : List String
  term : String
deriving DecidableEq, Repr

/-- The lines of a block, in input order. -/
def blockLines (b : StatusBlock) : List String := b.vline :: (b.fields ++ [b.term])

/-- A `version:` line (the `:`-split then has a second field). -/
def isVersionLineB (l : String) : Bool :=
  pyStartsWith "version:" (pyStripWs l) &&
  ((pySplit ":" 1 (pyStripWs l)).get? 1).isSome

/-- A well-formed optional status-field line: one of the five field
prefixes, carrying the delimiter its rule subscripts. -/
def isFieldLineB (l : String) : Bool :=
  (pyStartsWith "verbosity:" (pyStripWs l) && ((pySplit ":" 1 (pyStripWs l)).get? 1).isSome) ||
  (pyStartsWith "threads:" (pyStripWs l) && ((pySplit ": " 1 (pyStripWs l)).get? 1).isSome) ||
  (pyStartsWith "modules:" (pyStripWs l) && ((pySplit ": " 1 (pyStripWs l)).get? 1).isSome) ||
  (pyStartsWith "uptime:" (pyStripWs l) && ((pySplit ": " 1 (pyStripWs l)).get? 1).isSome) ||
  (pyStartsWith "options:" (pyStripWs l) && ((pySplit ": " 1 (pyStripWs l)).get? 1).isSome)

/-- The spec's shape for the terminator's pid token: a nonempty digit run
followed by one closing parenthesis (`unbound (pid 3699276) is ...`). -/
def pidTokenOk (t : String) : Bool :=
  (t.data.getLast? == some ')') && !t.data.dropLast.isEmpty &&
  t.data.dropLast.all isDigitCh

/-- A well-formed terminator line: starts with `unbound` and its third
space token (split at most 5 ways) is a parenthesized numeric pid. -/
def isTermLineB (l : String) : Bool :=
  pyStartsWith "unbound" (pyStripWs l) &&
  (match (pySplit " " 4 (pyStripWs l)).get? 2 with
   | some tok => pidTokenOk tok
   | none => false)

/-- A well-formed status block. -/
def wfBlock (b : StatusBlock) : Bool :=
  isVersionLineB b.vline && b.fields.all isFieldLineB && isTermLineB b.term

/-- The claim's pid text: strip one trailing `)` from a token. -/
def dropParenR (t : String) : String :=
  if t.data.getLast? == some ')' then String.mk t.data.dropLast else t

/-- The pid the claim ascribes to a terminator line: its third
space-delimited token (at most 5 tokens) with a trailing `)` removed. -/
def pidClaim (l : String) : Option String :=
  ((pySplit " " 4 (pyStripWs l)).get? 2).map dropParenR

theorem contains_singleton (c d : Char) : ([c] : List Char).contains d = (d == c) := by
  cases h : d == c <;> simp [List.contains, List.elem, h]

/-- On a well-shaped pid token the code's two-sided `)`-strip equals the
claim's single trailing-`)` strip. -/
theorem strip_paren_eq (t : String) (h : pidTokenOk t = true) :
    pyStripChars ")" t = dropParenR t := by
  unfold pidTokenOk at h
  simp only [Bool.and_eq_true, beq_iff_eq, Bool.not_eq_true', List.isEmpty_eq_false] at h
  obtain ⟨⟨hlast, hne⟩, hdig⟩ := h
  have hdec : t.data.dropLast ++ [')'] = t.data :=
    List.dropLast_append_getLast? ')' hlast
  have hnotp : ∀ d ∈ t.data.dropLast, (([')'] : List Char).contains d) = false := by
    intro d hd
    rw [contains_singleton]
    have hdd : isDigitCh d = true := List.all_eq_true.mp hdig d hd
    apply beq_eq_false_iff_ne.mpr
    intro hcon
    rw [hcon] at hdd
    exact absurd hdd (by decide)
  unfold pyStripChars dropParenR
  rw [show (t.data.getLast? == some ')') = true from by simp [hlast]]
  simp only [if_true]
  congr 1
  rw [← hdec]
  unfold stripChars
  have hstep1 : dropLeft [')'] (t.data.dropLast ++ [')']) = t.data.dropLast ++ [')'] := by
    cases hds : t.data.dropLast with
    | nil => exact absurd hds hne
    | cons d ds' =>
      simp only [List.cons_append, dropLeft]
      rw [hnotp d (by rw [hds]; simp)]
      simp
  rw [hstep1]
  have hstep2 : (t.data.dropLast ++ [')']).reverse = ')' :: t.data.dropLast.reverse := by
    simp
  rw [hstep2]
  have hstep3 : dropLeft [')'] (')' :: t.data.dropLast.reverse) =
      dropLeft [')'] t.data.dropLast.reverse := by
    simp only [dropLeft]
    rw [if_pos]
    rw [contains_singleton]
    simp
  rw [hstep3]
  have hstep4 : dropLeft [')'] t.data.dropLast.reverse = t.data.dropLast.reverse := by
    cases hrev : t.data.dropLast.reverse with
    | nil => rfl
    | cons e es =>
      simp only [dropLeft]
      rw [if_neg]
      rw [hnotp e (by rw [← List.mem_reverse, hrev]; simp)]
      simp
  rw [hstep4, List.reverse_reverse, List.dropLast_concat]

theorem version_step (st : PState) (l : String) (h : isVersionLineB l = true) :
    ∃ rec1 : Rec, processLine st l = .ok { st with status := some rec1 } := by
  unfold isVersionLineB at h
  simp only [Bool.and_eq_true] at h
  obtain ⟨hpre, hsp⟩ := h
  obtain ⟨v, hv⟩ := Option.isSome_iff_exists.mp hsp
  refine ⟨[("version", Value.vstr (pyStripWs v))], ?_⟩
  unfold processLine processCore
  rw [classify_version _ hpre, hv]

theorem field_step (st : PState) (rec0 : Rec) (l : String)
    (h : isFieldLineB l = true) (hst : st.status = some rec0) :
    ∃ rec1 : Rec, processLine st l = .ok { st with status := some rec1 } := by
  unfold isFieldLineB at h
  simp only [Bool.or_eq_true, Bool.and_eq_true] at h
  rcases h with (((⟨hp, hs⟩ | ⟨hp, hs⟩) | ⟨hp, hs⟩) | ⟨hp, hs⟩) | ⟨hp, hs⟩ <;>
    obtain ⟨v, hv⟩ := Option.isSome_iff_exists.mp hs
  · exact ⟨dictUpdate rec0 "verbosity" (Value.vstr v), by
      unfold processLine processCore
      rw [classify_verbosity _ hp, hv, hst]⟩
  · exact ⟨dictUpdate rec0 "threads" (Value.vstr v), by
      unfold processLine processCore
      rw [classify_threads _ hp, hv, hst]⟩
  · exact ⟨dictUpdate rec0 "modules" (Value.vstr v), by
      unfold processLine processCore
      rw [classify_modules _ hp, hv, hst]⟩
  · exact ⟨dictUpdate rec0 "uptime" (Value.vstr (pyStripChars " seconds" v)), by
      unfold processLine processCore
      rw [classify_uptime _ hp, hv, hst]⟩
  · exact ⟨dictUpdate rec0 "options" (Value.vstr v), by
      unfold processLine processCore
      rw [classify_options _ hp, hv, hst]⟩

theorem term_step (st : PState) (rec0 : Rec) (l : String)
    (h : isTermLineB l = true) (hst : st.status = some rec0) :
    ∃ rec1 : Rec, processLine st l =
        .ok { st with status := some rec1, rawOutput := st.rawOutput ++ [rec1] } ∧
      dictLookup "pid" rec1 = (pidClaim l).map Value.vstr := by
  unfold isTermLineB at h
  simp only [Bool.and_eq_true] at h
  obtain ⟨hpre, hm⟩ := h
  cases htok : (pySplit " " 4 (pyStripWs l)).get? 2 with
  | none =>
    rw [htok] at hm
    simp at hm
  | some tok =>
    rw [htok] at hm
    have hm' : pidTokenOk tok = true := hm
    refine ⟨dictUpdate rec0 "pid" (Value.vstr (pyStripChars ")" tok)), ?_, ?_⟩
    · unfold processLine processCore
      rw [classify_unbound _ hpre, htok, hst]
    · rw [dictLookup_update, if_pos rfl]
      unfold pidClaim
      rw [htok]
      simp only [Option.map_some']
      rw [strip_paren_eq tok hm']

theorem fields_run : ∀ (fields : List String) (st : PState) (rec0 : Rec),
    fields.all isFieldLineB = true → st.status = some rec0 →
    ∃ rec1 : Rec, runLines st fields = .ok { st with status := some rec1 }
  | [], st, rec0, _, hst => by
    refine ⟨rec0, ?_⟩
    unfold runLines
    cases st with
    | mk a b c d =>
      simp only at hst
      rw [hst]
  | l :: fields, st, rec0, hall, hst => by
    simp only [List.all_cons, Bool.and_eq_true] at hall
    obtain ⟨rec1, h1⟩ := field_step st rec0 l hall.1 hst
    obtain ⟨rec2, h2⟩ := fields_run fields { st with status := some rec1 } rec1 hall.2 rfl
    refine ⟨rec2, ?_⟩
    unfold runLines
    rw [h1]
    dsimp only
    rw [h2]

theorem block_run (st : PState) (b : StatusBlock) (hwf : wfBlock b = true) :
    ∃ rec1 : Rec, runLines st (blockLines b) =
        .ok { st with status := some rec1, rawOutput := st.rawOutput ++ [rec1] } ∧
      dictLookup "pid" rec1 = (pidClaim b.term).map Value.vstr := by
  unfold wfBlock at hwf
  simp only [Bool.and_eq_true] at hwf
  obtain ⟨⟨hv, hf⟩, ht⟩ := hwf
  obtain ⟨recV, h1⟩ := version_step st b.vline hv
  obtain ⟨recF, h2⟩ :=
    fields_run b.fields { st with status := some recV } recV hf rfl
  obtain ⟨recP, h3, hlook⟩ :=
    term_step { { st with status := some recV } with status := some recF } recF b.term ht rfl
  refine ⟨recP, ?_, hlook⟩
  unfold blockLines
  unfold runLines
  rw [h1]
  dsimp only
  rw [runLines_append, h2]
  dsimp only
  unfold runLines
  rw [h3]
  rfl

theorem blocks_run : ∀ (blocks : List StatusBlock) (st : PState),
    (∀ b ∈ blocks, wfBlock b = true) →
    ∃ (recs : List Rec) (st' : PState),
      runLines st ((blocks.map blockLines).join) = .ok st' ∧
      st'.rawOutput = st.rawOutput ++ recs ∧
      st'.itrparse = st.itrparse ∧ st'.itr = st.itr ∧
      recs.length = blocks.length ∧
      ∀ i : Nat, (recs.get? i).map (dictLookup "pid") =
        (blocks.get? i).map (fun b => (pidClaim b.term).map Value.vstr)
  | [], st, _ => by
    refine ⟨[], st, rfl, by simp, rfl, rfl, rfl, ?_⟩
    intro i
    simp
  | b :: blocks, st, h => by
    obtain ⟨recB, hB, hlookB⟩ := block_run st b (h b (by simp))
    obtain ⟨recs, st', hrun, hout, hitrp, hitr, hlen, hidx⟩ :=
      blocks_run blocks { st with status := some recB, rawOutput := st.rawOutput ++ [recB] }
        (fun b' hb' => h b' (by simp [hb']))
    refine ⟨recB :: recs, st', ?_, ?_, hitrp, hitr, by simp [hlen], ?_⟩
    · simp only [List.map_cons, List.join, List.flatten_cons]
      rw [runLines_append, hB]
      dsimp only
      exact hrun
    · rw [hout]
      dsimp only
      simp
    · intro i
      cases i with
      | zero => simpa using hlookB
      | succ n => simpa using hidx n

theorem block_lines_ne (b : StatusBlock) (hwf : wfBlock b = true) :
    ∀ l ∈ blockLines b, (l != "") = true := by
  unfold wfBlock at hwf
  simp only [Bool.and_eq_true] at hwf
  obtain ⟨⟨hv, hf⟩, ht⟩ := hwf
  intro l hl
  unfold blockLines at hl
  simp only [List.mem_cons, List.mem_append, List.mem_singleton] at hl
  rcases hl with hl | hl | hl | hl
  · subst hl
    by_cases hbe : b.vline = ""
    · rw [hbe] at hv
      exact absurd hv (by decide)
    · simp [hbe]
  · have hfl := List.all_eq_true.mp hf l hl
    by_cases hbe : l = ""
    · rw [hbe] at hfl
      exact absurd hfl (by decide)
    · simp [hbe]
  · subst hl
    by_cases hbe : b.term = ""
    · rw [hbe] at ht
      exact absurd ht (by decide)
    · simp [hbe]
  · simp at hl

/-- C1: an input made of N well-formed status blocks — each a `version:`
line, optional field lines, and a terminator line starting with `unbound`
whose third space token (split at most 5 ways) is a parenthesized numeric
pid — and no aggregate-shaped lines parses into exactly N status records,
in input order, the i-th record's `pid` being the i-th terminator's third
space token with its trailing `)` stripped. -/
theorem unbound_c1 (data : String) (blocks : List StatusBlock)
    (hd : pyHasData data = true)
    (hL : pySplitLines data = (blocks.map blockLines).join)
    (hwf : ∀ b ∈ blocks, wfBlock b = true) :
    ∃ recs : List Rec, parse data true = .ok recs ∧ recs.length = blocks.length ∧
      ∀ i : Nat, (recs.get? i).map (dictLookup "pid") =
        (blocks.get? i).map (fun b => (pidClaim b.term).map Value.vstr) := by
  have hfilter : procLines data = (blocks.map blockLines).join := by
    unfold procLines
    rw [hL]
    apply List.filter_eq_self.mpr
    intro l hl
    obtain ⟨ls, hls, hmem⟩ := List.mem_join.mp hl
    obtain ⟨b, hb, hbl⟩ := List.mem_map.mp hls
    subst hbl
    exact block_lines_ne b (hwf b hb) l hmem
  obtain ⟨recs, st', hrun, hout, hitrp, -, hlen, hidx⟩ := blocks_run blocks initState hwf
  refine ⟨recs, ?_, hlen, hidx⟩
  have hfalse : st'.itrparse = false := hitrp
  have hout' : st'.rawOutput = recs := hout
  have hpr : parseRaw data = .ok recs := by
    unfold parseRaw
    rw [hfilter, hrun, hd]
    simp [hout', hfalse]
  unfold parse
  rw [hpr]
  rfl

theorem unbound_c1_witness :
    ∃ recs : List Rec,
      parse "version: 1.17.1\nverbosity: 1\nthreads: 4\nunbound (pid 3699276) is running...\nversion: 1.0\nunbound (pid 42) is running..." true = .ok recs ∧
      recs.length =
        ([⟨"version: 1.17.1", ["verbosity: 1", "threads: 4"], "unbound (pid 3699276) is running..."⟩,
          ⟨"version: 1.0", [], "unbound (pid 42) is running..."⟩] : List StatusBlock).length ∧
      ∀ i : Nat, (recs.get? i).map (dictLookup "pid") =
        (([⟨"version: 1.17.1", ["verbosity: 1", "threads: 4"], "unbound (pid 3699276) is running..."⟩,
           ⟨"version: 1.0", [], "unbound (pid 42) is running..."⟩] : List StatusBlock).get? i).map
          (fun b => (pidClaim b.term).map Value.vstr) :=
  unbound_c1
    "version: 1.17.1\nverbosity: 1\nthreads: 4\nunbound (pid 3699276) is running...\nversion: 1.0\nunbound (pid 42) is running..."
    [⟨"version: 1.17.1", ["verbosity: 1", "threads: 4"], "unbound (pid 3699276) is running..."⟩,
     ⟨"version: 1.0", [], "unbound (pid 42) is running..."⟩]
    (by decide) (by decide) (by decide)

theorem unbound_c2_witness :
    ∃ pre tail,
      ([[("command", Value.vstr "ok")], [("example.com.", Value.vstr "static")]] : List Rec) =
        pre ++ tail ∧ tail.length ≤ 1 ∧
      (tail ≠ [] ↔
        (procLines "ok\nexample.com. static").any (fun l => aggB (pyStripWs l)) = true) ∧
      pre.length = (procLines "ok\nexample.com. static").countP (fun l => emitB (pyStripWs l)) :=
  unbound_c2 "ok\nexample.com. static"
    [[("command", Value.vstr "ok")], [("example.com.", Value.vstr "static")]] rfl

theorem unbound_c6_amended_witness :
    ∃ pre tail,
      ([[("command", Value.vstr "ok")], [("thread0.num.queries", Value.vint 5)]] : List Rec) =
        pre ++ tail ∧ tail.length ≤ 1 ∧
      (tail ≠ [] →
        (procLines "ok\nthread0.num.queries=5").any (fun l => aggB (pyStripWs l)) = true) ∧
      ∀ r ∈ pre, recText r = true :=
  unbound_c6_amended "ok\nthread0.num.queries=5"
    [[("command", Value.vstr "ok")], [("thread0.num.queries", Value.vint 5)]] rfl

theorem unbound_c10_witness :
    ∃ agg, ([[("a.", Value.vint 2)]] : List Rec).getLast? = some agg ∧
      (dictKeys agg).Nodup ∧
      ∀ k, dictLookup k agg = lastContrib k (procLines "a.\tserial 1\na.\tserial 2") :=
  unbound_c10 "a.\tserial 1\na.\tserial 2" [[("a.", Value.vint 2)]] rfl (by decide)
